import Mathlib

/-!
Verification of the `excel-number-format` pipeline (tokenizer, structure
builder, renderer) against its natural-language specification.

The embedding below is a direct translation of the TypeScript sources:
`src/tokenizer.ts` (class `Tokenizer`), `src/parser.ts` (class `Parser`,
shipped in the repository as an unnamed source part) and `src/renderer.ts`.
JavaScript numbers are modelled by their canonical decimal representation
(sign flag plus integer-digit and fraction-digit strings), which is exactly
the data the renderer extracts from a number via `String(value).split('.')`;
comparisons are interpreted over the exact rational value.  Floating-point
artefacts (exponent notation for very large or very small magnitudes,
inexact `* 100` percent scaling) are outside this model.
-/

namespace ENF

/-- Tokens produced by the tokenizer (`src/tokenizer.ts`, `type Token`).
The `char` fields of `Escape`, `Fill` and `Space` are strings in the source
(one character, or the empty string when the marker ends the input), and are
modelled as `String` here for that reason. -/
inductive Token where
  | SectionSeparator
  | DecimalPoint
  | ThousandSep
  | Percent
  | TextPlaceholder
  | Placeholder (char : Char)
  | Literal (char : Char)
  | Escape (char : String)
  | Fill (char : String)
  | Space (char : String)
  | Color (name : String)
  | ScientificSymbol (sign : Char)
  | Quoted (text : String)
  | Locale (raw : String)
  | Condition (op : String) (value : ℚ)
  | DateToken (token : String)
  deriving DecidableEq

/-- Body of a quoted literal: `Tokenizer.readQuoted`.  Consumes characters
after the opening quote up to an unescaped closing quote (a doubled `""`
decodes to one `"`); returns the decoded text and the remaining input. -/
def readQuotedBody : List Char → List Char × List Char
  | [] => ([], [])
  | '"' :: '"' :: rest =>
    let (t, r) := readQuotedBody rest
    ('"' :: t, r)
  | '"' :: rest => ([], rest)
  | c :: rest =>
    let (t, r) := readQuotedBody rest
    (c :: t, r)

/-- Bracket content: `Tokenizer.readBracket`.  Reads up to `]` or end of
input; returns the raw content and the remaining input (the `]` consumed). -/
def readBracketBody : List Char → List Char × List Char
  | [] => ([], [])
  | ']' :: rest => ([], rest)
  | c :: rest =>
    let (t, r) := readBracketBody rest
    (c :: t, r)

/-- Digit string to natural number, as JS `Number` reads a digit run. -/
def digitsToNat (ds : List Char) : Nat :=
  ds.foldl (fun a c => 10 * a + (c.toNat - 48)) 0

/-- The operator alternatives of the condition regular expression
`^(<=|>=|<>|<|>|=)...$`, tried left to right. -/
def matchCondOp : List Char → Option (String × List Char)
  | '<' :: '=' :: r => some ("<=", r)
  | '>' :: '=' :: r => some (">=", r)
  | '<' :: '>' :: r => some ("<>", r)
  | '<' :: r => some ("<", r)
  | '>' :: r => some (">", r)
  | '=' :: r => some ("=", r)
  | _ => none

/-- The numeric tail of the condition regular expression:
`-?\d+(\.\d+)?` anchored at the end, evaluated exactly (JS `Number`). -/
def parseDecimal (cs : List Char) : Option ℚ :=
  let (neg, cs1) : Bool × List Char :=
    match cs with
    | '-' :: r => (true, r)
    | _ => (false, cs)
  let d1 := cs1.takeWhile Char.isDigit
  let cs2 := cs1.dropWhile Char.isDigit
  if d1.isEmpty then none
  else
    match cs2 with
    | [] =>
      let numer : Int := (digitsToNat d1 : Nat)
      some (mkRat (if neg then -numer else numer) 1)
    | '.' :: cs3 =>
      let d2 := cs3.takeWhile Char.isDigit
      let cs4 := cs3.dropWhile Char.isDigit
      if d2.isEmpty ∨ ¬ cs4.isEmpty then none
      else
        let numer : Int := (digitsToNat d1 * 10 ^ d2.length + digitsToNat d2 : Nat)
        some (mkRat (if neg then -numer else numer) (10 ^ d2.length))
    | _ => none

/-- Condition match `content.match(/^(<=|>=|<>|<|>|=)(-?\d+(\.\d+)?)$/)`. -/
def matchCondition (cs : List Char) : Option (String × ℚ) :=
  match matchCondOp cs with
  | none => none
  | some (op, rest) =>
    match parseDecimal rest with
    | none => none
    | some v => some (op, v)

/-- The fixed 8-color set of `Tokenizer.readBracket`. -/
def colorNames : List String :=
  ["Black", "Blue", "Cyan", "Green", "Magenta", "Red", "White", "Yellow"]

/-- Classification of bracket content: condition, then color, then locale. -/
def classifyBracket (cs : List Char) : Token :=
  match matchCondition cs with
  | some (op, v) => Token.Condition op v
  | none =>
    if colorNames.contains (String.mk cs) then Token.Color (String.mk cs)
    else Token.Locale (String.mk cs)

/-- Date patterns tried in order (`Tokenizer.tryDateToken`): longer patterns
come before shorter prefixes of themselves. -/
def datePatterns : List String :=
  ["yyyy", "yyy", "yy", "y", "mmmmm", "mmmm", "mmm", "mm", "m",
   "dddd", "ddd", "dd", "d", "hh", "h", "ss", "s", "AM/PM", "am/pm"]

/-- First date pattern that is a prefix of the remaining input. -/
def tryDateToken (cs : List Char) : Option String :=
  datePatterns.find? (fun p => p.toList.isPrefixOf cs)

/-- Main tokenizer loop, `Tokenizer.tokenize`.  One iteration per emitted
token; every iteration consumes at least one character, so an amount of fuel
equal to the input length makes the fuel counter unreachable. -/
def tokenizeGo : Nat → List Char → List Token
  | 0, _ => []
  | _, [] => []
  | fuel + 1, c :: cs =>
    if c = ';' then Token.SectionSeparator :: tokenizeGo fuel cs
    else if c = '"' then
      let (t, r) := readQuotedBody cs
      Token.Quoted (String.mk t) :: tokenizeGo fuel r
    else if c = '\\' then
      match cs with
      | [] => [Token.Escape ""]
      | d :: r => Token.Escape (String.mk [d]) :: tokenizeGo fuel r
    else if c = '*' then
      match cs with
      | [] => [Token.Fill ""]
      | d :: r => Token.Fill (String.mk [d]) :: tokenizeGo fuel r
    else if c = '_' then
      match cs with
      | [] => [Token.Space ""]
      | d :: r => Token.Space (String.mk [d]) :: tokenizeGo fuel r
    else if c = '[' then
      let (t, r) := readBracketBody cs
      classifyBracket t :: tokenizeGo fuel r
    else if c = '0' ∨ c = '#' ∨ c = '?' then Token.Placeholder c :: tokenizeGo fuel cs
    else if c = '.' then Token.DecimalPoint :: tokenizeGo fuel cs
    else if c = ',' then Token.ThousandSep :: tokenizeGo fuel cs
    else if c = '%' then Token.Percent :: tokenizeGo fuel cs
    else if (c = 'E' ∨ c = 'e') ∧ (cs.head? = some '+' ∨ cs.head? = some '-') then
      Token.ScientificSymbol (cs.headD ' ') :: tokenizeGo fuel cs.tail
    else if c = '@' then Token.TextPlaceholder :: tokenizeGo fuel cs
    else
      match tryDateToken (c :: cs) with
      | some p => Token.DateToken p :: tokenizeGo fuel ((c :: cs).drop p.length)
      | none => Token.Literal c :: tokenizeGo fuel cs

/-- `new Tokenizer(format).tokenize()`. -/
def tokenize (format : String) : List Token :=
  tokenizeGo format.toList.length format.toList

/-- Part kinds of the AST (`FormatPartKind` plus the `char` payload of a
literal part, folded into one inductive). -/
inductive FormatPart where
  | Digit
  | ZeroDigit
  | SpaceDigit
  | Percent
  | Literal (char : Char)
  | Dot
  deriving DecidableEq

/-- A section condition (`type Condition`). -/
structure Condition where
  op : String
  value : ℚ
  deriving DecidableEq

/-- One format section (`type FormatSection`).  Optional numeric fields keep
their JS `undefined` default as `none` / `0` / `false`. -/
structure FormatSection where
  condition : Option Condition := none
  color : Option String := none
  parts : List FormatPart := []
  scientific : Option Char := none
  percentCount : Nat := 0
  thousandSeparator : Bool := false
  scale : Option Nat := none
  deriving DecidableEq

/-- The AST (`type FormatAST`). -/
structure FormatAST where
  sections : List FormatSection
  deriving DecidableEq

/-- The fresh accumulator section `{ parts: [] }` of `Parser.parse`. -/
def emptySection : FormatSection := {}

/-- Is this token a digit placeholder token? -/
def isPlaceholderTok : Option Token → Bool
  | some (Token.Placeholder _) => true
  | _ => false

/-- Is this token a literal token? -/
def isLiteralTok : Option Token → Bool
  | some (Token.Literal _) => true
  | _ => false

/-- Placeholder character to part kind, `{'0': ZeroDigit, '#': Digit,
'?': SpaceDigit}[tk.char]`.  Only these three characters are ever produced
by the tokenizer; the wildcard is unreachable from real token streams. -/
def placeholderKind (c : Char) : FormatPart :=
  if c = '0' then FormatPart.ZeroDigit
  else if c = '#' then FormatPart.Digit
  else FormatPart.SpaceDigit

/-- The token-by-token loop of `Parser.parse`.  `prev` is `tokens[index-1]`,
the head of `rest` is the current token and `rest.tail.head?` is
`tokens[index+1]`.  The source's `switch (tk.type)` has a `case 'Dot'`
arm intended for the decimal point, but the tokenizer tags that token
`'DecimalPoint'`, which matches no arm of the switch; the `DecimalPoint`
case below therefore changes nothing, exactly as the source does at run
time.  `Escape`, `Fill`, `Space`, `TextPlaceholder`, `DateToken` and
`Locale` tokens likewise have no switch arm and are dropped. -/
def parseAux : Option Token → List Token → FormatSection → List FormatSection → List FormatSection
  | _, [], sec, acc => if sec.parts.length > 0 then acc ++ [sec] else acc
  | _, (tk@(Token.Color name)) :: rest, sec, acc =>
    parseAux (some tk) rest { sec with color := some name } acc
  | _, (tk@(Token.Condition op value)) :: rest, sec, acc =>
    parseAux (some tk) rest { sec with condition := some ⟨op, value⟩ } acc
  | _, (tk@Token.SectionSeparator) :: rest, sec, acc =>
    parseAux (some tk) rest emptySection (acc ++ [sec])
  | _, (tk@Token.DecimalPoint) :: rest, sec, acc =>
    parseAux (some tk) rest sec acc
  | prev, (tk@Token.ThousandSep) :: rest, sec, acc =>
    let sec' :=
      if isPlaceholderTok prev then
        if isPlaceholderTok rest.head? then
          { sec with thousandSeparator := true }
        else if ¬ rest.any (fun t => isPlaceholderTok (some t)) then
          { sec with scale := some ((sec.scale.getD 1) * 1000) }
        else sec
      else if isLiteralTok prev then
        { sec with parts := sec.parts ++ [FormatPart.Literal ','] }
      else sec
    parseAux (some tk) rest sec' acc
  | _, (tk@Token.Percent) :: rest, sec, acc =>
    parseAux (some tk) rest
      { sec with percentCount := sec.percentCount + 1
                 parts := sec.parts ++ [FormatPart.Percent] } acc
  | _, (tk@(Token.ScientificSymbol sign)) :: rest, sec, acc =>
    parseAux (some tk) rest { sec with scientific := some sign } acc
  | _, (tk@(Token.Literal ch)) :: rest, sec, acc =>
    parseAux (some tk) rest { sec with parts := sec.parts ++ [FormatPart.Literal ch] } acc
  | _, (tk@(Token.Quoted text)) :: rest, sec, acc =>
    parseAux (some tk) rest
      { sec with parts := sec.parts ++ text.toList.map FormatPart.Literal } acc
  | _, (tk@(Token.Placeholder ch)) :: rest, sec, acc =>
    parseAux (some tk) rest { sec with parts := sec.parts ++ [placeholderKind ch] } acc
  | _, tk :: rest, sec, acc =>
    parseAux (some tk) rest sec acc

/-- `new Parser(tokens).parse()`. -/
def parse (tokens : List Token) : FormatAST :=
  { sections := parseAux none tokens emptySection [] }

/-! ### Renderer (`src/renderer.ts`) -/

/-- A value to render: a JS string or a JS number. -/
structure JSNum where
  neg : Bool
  intStr : List Char
  fracStr : List Char
  deriving DecidableEq

/-- The exact rational value denoted by the canonical decimal
representation; numeric comparisons of the source are interpreted here. -/
def JSNum.toRat (v : JSNum) : ℚ :=
  let mag : ℚ :=
    mkRat (digitsToNat v.intStr * 10 ^ v.fracStr.length + digitsToNat v.fracStr : Nat)
      (10 ^ v.fracStr.length)
  if v.neg then -mag else mag

/-- JS `String(v)` for a number in plain decimal notation. -/
def JSNum.toStr (v : JSNum) : String :=
  (if v.neg then "-" else "") ++ String.mk v.intStr ++
    (if v.fracStr.isEmpty then "" else "." ++ String.mk v.fracStr)

/-- `type Value = string | number`. -/
inductive Value where
  | str (s : String)
  | num (n : JSNum)
  deriving DecidableEq

/-- JS `String(value)` over both value kinds. -/
def jsString : Value → String
  | Value.str s => s
  | Value.num n => n.toStr

/-- `type RenderResult`. -/
structure RenderResult where
  text : String
  color : Option String := none
  deriving DecidableEq

/-- Strip leading zeros of an integer-digit string, keeping a final "0". -/
def stripLeadingZeros (l : List Char) : List Char :=
  match l.dropWhile (· = '0') with
  | [] => ['0']
  | r => r

/-- Strip trailing zeros of a fraction-digit string. -/
def stripTrailingZeros (l : List Char) : List Char :=
  (l.reverse.dropWhile (· = '0')).reverse

/-- The magnitude string split of `renderSection`:
`String(numValue * 100 ** percentCount).split('.')`, with the percent
scaling modelled as the exact decimal-point shift by `2 * percentCount`
digits (the floating-point product of the source may deviate from the exact
product in the last units of precision for some inputs; the canonical
decimal model renders the exact product). -/
def scaledSplit (v : JSNum) (pc : Nat) : List Char × List Char :=
  if pc = 0 then (v.intStr, v.fracStr)
  else
    let k := 2 * pc
    let moved := v.fracStr.take k ++ List.replicate (k - v.fracStr.length) '0'
    (stripLeadingZeros (v.intStr ++ moved), stripTrailingZeros (v.fracStr.drop k))

/-- `evaluateCondition`: numeric comparison keyed on the operator string;
unknown operators default to `true`. -/
def evaluateCondition (condition : Condition) (numValue : ℚ) : Bool :=
  if condition.op = ">" then decide (numValue > condition.value)
  else if condition.op = ">=" then decide (numValue ≥ condition.value)
  else if condition.op = "<" then decide (numValue < condition.value)
  else if condition.op = "<=" then decide (numValue ≤ condition.value)
  else if condition.op = "=" ∨ condition.op = "==" then decide (numValue = condition.value)
  else if condition.op = "<>" ∨ condition.op = "!=" then decide (numValue ≠ condition.value)
  else true

/-- Does the section's condition hold for this number (`sec.condition &&
evaluateCondition(sec.condition, value)` inside the selection loop)? -/
def condHolds (n : JSNum) (s : FormatSection) : Bool :=
  match s.condition with
  | some c => evaluateCondition c n.toRat
  | none => false

/-- `selectSection`: pick the section for a value.  JS array indexing that
can fall off the end (`sections[0]` of an empty list, the `null` returns)
is modelled by `Option`. -/
def selectSection (ast : FormatAST) (value : Value) : Option FormatSection :=
  let sections := ast.sections
  if sections.length = 1 then sections[0]?
  else
    let conditionalSections := sections.filter (fun s => s.condition.isSome)
    match value with
    | Value.num n =>
      if conditionalSections.length > 0 then
        match conditionalSections.find? (condHolds n) with
        | some s => some s
        | none =>
          let nonConditionalSections := sections.filter (fun s => s.condition.isNone)
          nonConditionalSections[0]?
      else if sections.length = 2 then
        if n.toRat < 0 then sections[1]? else sections[0]?
      else if sections.length = 3 then
        if n.toRat > 0 then sections[0]?
        else if n.toRat < 0 then sections[1]?
        else sections[2]?
      else if sections.length = 4 then
        if n.toRat > 0 then sections[0]?
        else if n.toRat < 0 then sections[1]?
        else sections[2]?
      else sections[0]?
    | Value.str _ =>
      if sections.length = 4 then sections[3]? else sections[0]?

/-- Is a part a digit placeholder (`Digit`, `ZeroDigit` or `SpaceDigit`)? -/
def isPlaceholderPart : FormatPart → Bool
  | FormatPart.Digit => true
  | FormatPart.ZeroDigit => true
  | FormatPart.SpaceDigit => true
  | _ => false

/-- Is a part the decimal-point marker? -/
def isDotPart : FormatPart → Bool
  | FormatPart.Dot => true
  | _ => false

/-- State of the `formatIntegerPart` loop: the unconsumed integer digits
in right-to-left order (`digitIndex` cursor), the count of emitted digits
(`digits`) and the output in emission order (`result`, reversed at the
end as in the source). -/
structure FipState where
  rev : List Char
  digits : Nat
  result : List Char

/-- `pushDigit` of `formatIntegerPart`: comma every third emitted digit
when grouping is on, then the digit itself. -/
def fipPush (thSep : Bool) (st : FipState) (c : Char) : FipState :=
  let res := if thSep ∧ 0 < st.digits ∧ st.digits % 3 = 0 then st.result ++ [','] else st.result
  { st with digits := st.digits + 1, result := res ++ [c] }

/-- The `while (hasMoreInt()) pushDigit(nextInt())` flush, structured over
the list of unconsumed digits (which always equals `st.rev`). -/
def fipFlushGo (thSep : Bool) : List Char → FipState → FipState
  | [], st => st
  | d :: rest, st => fipFlushGo thSep rest (fipPush thSep { st with rev := rest } d)

/-- The `while (hasMoreInt()) pushDigit(nextInt())` flush. -/
def fipFlush (thSep : Bool) (st : FipState) : FipState :=
  fipFlushGo thSep st.rev st

/-- One placeholder step of `formatIntegerPart`: consume a digit, or pad
per the placeholder kind once digits are exhausted. -/
def fipDigitStep (thSep : Bool) (p : FormatPart) (st : FipState) : FipState :=
  match st.rev with
  | [] =>
    match p with
    | FormatPart.ZeroDigit => fipPush thSep st '0'
    | FormatPart.SpaceDigit => { st with result := st.result ++ [' '] }
    | _ => st
  | d :: rest => fipPush thSep { st with rev := rest } d

/-- The `for ([index, part] of parts.reverse().entries())` loop of
`formatIntegerPart`; `lastIdx` is `lastDigitIndex`, the reversed-order
index of the format's leftmost digit placeholder, where the remaining
unconsumed digits are flushed. -/
def fipGo (thSep : Bool) (lastIdx : Int) : Nat → List FormatPart → FipState → FipState
  | _, [], st => st
  | index, p :: ps, st =>
    let st' :=
      match p with
      | FormatPart.ZeroDigit => fipDigitStep thSep p st
      | FormatPart.SpaceDigit => fipDigitStep thSep p st
      | FormatPart.Digit => fipDigitStep thSep p st
      | FormatPart.Literal ch => { st with result := st.result ++ [ch] }
      | FormatPart.Percent => { st with result := st.result ++ ['%'] }
      | FormatPart.Dot => st
    let st'' :=
      if isPlaceholderPart p ∧ (index : Int) = lastIdx then fipFlush thSep st' else st'
    fipGo thSep lastIdx (index + 1) ps st''

/-- `formatIntegerPart(integerStr, section, parts)`. -/
def formatIntegerPart (integerStr : List Char) (sec : FormatSection)
    (parts : List FormatPart) : String :=
  let firstDigitIndex : Int :=
    match parts.findIdx? (fun p => isPlaceholderPart p) with
    | some i => (i : Int)
    | none => -1
  let lastDigitIndex : Int :=
    if firstDigitIndex > -1 then (parts.length : Int) - firstDigitIndex - 1 else -1
  let st := fipGo sec.thousandSeparator lastDigitIndex 0 parts.reverse
    { rev := integerStr.reverse, digits := 0, result := [] }
  String.mk st.result.reverse

/-- JS `Number(c)` for the characters that can reach the decimal rounding
step: a digit character, or the space pad (JS `Number(' ')` is `0`). -/
def jsCharNum (c : Char) : Nat :=
  if c = ' ' then 0 else c.toNat - 48

/-- State of the `formatDecimalPart` loop: forward cursor into the
fraction digits (`digitIndex`), count of emitted digits (`digits`) and the
accumulated output string. -/
structure FdpState where
  digitIndex : Nat
  digits : Nat
  result : String

/-- `pushDigit` of `formatDecimalPart`: when the count of emitted digits
equals the parts-index of the last digit placeholder and the following
fraction digit is in `'5'`–`'9'`, the pushed character is replaced by
`String(Number(c) + 1)` (two characters, `"10"`, when the digit is 9). -/
def fdpPush (decStr : List Char) (lastIdx : Int) (st : FdpState) (c : Char) : FdpState :=
  let out : String :=
    if (st.digits : Int) = lastIdx then
      match decStr[st.digits + 1]? with
      | some next =>
        if '5' ≤ next ∧ next ≤ '9' then toString (jsCharNum c + 1) else String.mk [c]
      | none => String.mk [c]
    else String.mk [c]
  { st with digits := st.digits + 1, result := st.result ++ out }

/-- The `for (part of parts)` loop of `formatDecimalPart`. -/
def fdpGo (decStr : List Char) (lastIdx : Int) : List FormatPart → FdpState → FdpState
  | [], st => st
  | p :: ps, st =>
    let st' :=
      match p with
      | FormatPart.ZeroDigit =>
        let d := decStr[st.digitIndex]?
        fdpPush decStr lastIdx { st with digitIndex := st.digitIndex + 1 } (d.getD '0')
      | FormatPart.Digit =>
        let d := decStr[st.digitIndex]?
        match d with
        | some c => fdpPush decStr lastIdx { st with digitIndex := st.digitIndex + 1 } c
        | none => { st with digitIndex := st.digitIndex + 1 }
      | FormatPart.SpaceDigit =>
        let d := decStr[st.digitIndex]?
        fdpPush decStr lastIdx { st with digitIndex := st.digitIndex + 1 } (d.getD ' ')
      | FormatPart.Percent => { st with result := st.result ++ "%" }
      | FormatPart.Literal ch => { st with result := st.result ++ String.mk [ch] }
      | FormatPart.Dot => st
    fdpGo decStr lastIdx ps st'

/-- `parts.findLastIndex(placeholder)` of `formatDecimalPart`, `-1` when no
digit placeholder occurs. -/
def lastPlaceholderIndex (parts : List FormatPart) : Int :=
  match parts.reverse.findIdx? (fun p => isPlaceholderPart p) with
  | some i => (parts.length : Int) - 1 - (i : Int)
  | none => -1

/-- `formatDecimalPart(decimalStr, section, parts)` (the `section` argument
is unused in the source as well). -/
def formatDecimalPart (decimalStr : List Char) (sec : FormatSection)
    (parts : List FormatPart) : String :=
  (fdpGo decimalStr (lastPlaceholderIndex parts) parts
    { digitIndex := 0, digits := 0, result := "" }).result

/-- `formatTextSection(text, section)`: only literal parts are emitted (the
`text` argument is unused in the source as well). -/
def formatTextSection (text : String) (sec : FormatSection) : String :=
  String.mk (sec.parts.foldl
    (fun acc p => match p with
      | FormatPart.Literal ch => acc ++ [ch]
      | _ => acc) [])

/-- The body of `renderSection` after the magnitude has been stringified
and split: split the parts at the first `Dot`, format each side, place the
sign, and join with `.` when a `Dot` part existed. -/
def renderNumParts (sec : FormatSection) (isNegative : Bool)
    (integerStr decimalStr : List Char) : String :=
  let dotIndex := sec.parts.findIdx? (fun p => isDotPart p)
  let integerParts :=
    match dotIndex with
    | some i => sec.parts.take i
    | none => sec.parts
  let decimalParts :=
    match dotIndex with
    | some i => sec.parts.drop (i + 1)
    | none => []
  let formatedInt := formatIntegerPart integerStr sec integerParts
  let formatedInt := if isNegative then "-" ++ formatedInt else formatedInt
  match dotIndex with
  | none => formatedInt
  | some _ => formatedInt ++ "." ++ formatDecimalPart decimalStr sec decimalParts

/-- `renderSection(section, value)`. -/
def renderSection (sec : FormatSection) (value : Value) : String :=
  match value with
  | Value.str s => formatTextSection s sec
  | Value.num numValue =>
    let isNegative := decide (numValue.toRat < 0)
    let (integerStr, decimalStr) := scaledSplit numValue sec.percentCount
    renderNumParts sec isNegative integerStr decimalStr

/-- The part of `render` that follows parsing: select a section, evaluate
its condition, and format; the fallback paths return `String(value)` with
no color. -/
def renderWithAST (ast : FormatAST) (value : Value) : RenderResult :=
  match selectSection ast value with
  | none => { text := jsString value, color := none }
  | some sec =>
    match sec.condition with
    | some cond =>
      match value with
      | Value.num n =>
        if evaluateCondition cond n.toRat then
          { text := renderSection sec value, color := sec.color }
        else { text := jsString value, color := none }
      | Value.str _ => { text := jsString value, color := none }
    | none => { text := renderSection sec value, color := sec.color }

/-- `render(value, format)`: tokenize, parse, select, format. -/
def render (value : Value) (format : String) : RenderResult :=
  renderWithAST (parse (tokenize format)) value

/-! ### Statement-side helper definitions -/

/-- Decimal digits of a natural number, most significant first (the digits
of JS `String(n)` for a whole number); fuel-structured, one division per
digit, so `n + 1` units of fuel always suffice. -/
def natToDigitsGo : Nat → Nat → List Char → List Char
  | 0, _, acc => acc
  | fuel + 1, n, acc =>
    if n < 10 then Nat.digitChar n :: acc
    else natToDigitsGo fuel (n / 10) (Nat.digitChar (n % 10) :: acc)

/-- Decimal digit string of a natural number. -/
def natToDigits (n : Nat) : List Char :=
  natToDigitsGo (n + 1) n []

/-- The JS number denoted by an integer: sign flag and decimal magnitude
digits, empty fraction. -/
def intToJSNum (v : Int) : JSNum :=
  { neg := decide (v < 0), intStr := natToDigits v.natAbs, fracStr := [] }

/-- The plain decimal string of an integer. -/
def intPlainString (v : Int) : String :=
  (if v < 0 then "-" else "") ++ String.mk (natToDigits v.natAbs)

/-- Count of section-separator tokens in a token stream. -/
def countSectionSeps (tks : List Token) : Nat :=
  tks.countP (fun t => decide (t = Token.SectionSeparator))

/-- A section with its `scale` field erased; two sections are "identical
except for scale" exactly when they have the same `clearScale` image. -/
def FormatSection.clearScale (s : FormatSection) : FormatSection :=
  { s with scale := none }

/-- Modelled from the spec: the section index prescribed by the
unconditional selection rules of the specification (section 4.3) for an
AST of `n` sections, none of which carries a condition. -/
def specSelectionIndex (n : Nat) (value : Value) : Nat :=
  if n = 1 then 0
  else
    match value with
    | Value.str _ => if n = 4 then 3 else 0
    | Value.num v =>
      if n = 2 then (if v.toRat < 0 then 1 else 0)
      else if v.toRat > 0 then 0
      else if v.toRat < 0 then 1
      else 2

/-- The character the renderer emits at the last decimal digit placeholder:
the fraction digit at position `k`, incremented by one (as a decimal
number, so `'9'` becomes `"10"`) exactly when the following fraction digit
is in `'5'`–`'9'`. -/
def roundLastDigit (decStr : List Char) (k : Nat) : String :=
  let c := decStr.getD k '0'
  match decStr[k + 1]? with
  | some next =>
    if '5' ≤ next ∧ next ≤ '9' then toString (jsCharNum c + 1) else String.mk [c]
  | none => String.mk [c]

/-- Rendering of a run of decimal-side parts containing no digit
placeholder: literals and percent signs pass through, anything else is
dropped. -/
def tailLiterals : List FormatPart → String
  | [] => ""
  | FormatPart.Percent :: qs => "%" ++ tailLiterals qs
  | FormatPart.Literal ch :: qs => String.mk [ch] ++ tailLiterals qs
  | _ :: qs => tailLiterals qs

/-! ### Theorems -/

/-- C1.  The claim states `render(123.456, "0.00") = { text := "123.46" }`
(as do the repository's own tests and README).  The code instead returns
`{ text := "123", color := none }`: the structure builder's switch arm for
the decimal point is labelled `'Dot'` while the tokenizer tags the token
`'DecimalPoint'`, so the `.` of the format is dropped, the section has no
decimal side, and the fraction digits are discarded.  This theorem
evaluates the code at the claim's input, exhibiting the divergence. -/
theorem c1_render_123_456_with_0_00 :
    render (Value.num ⟨false, ['1', '2', '3'], ['4', '5', '6']⟩) "0.00" =
      { text := "123", color := none } := by
  decide

/-- C2.  The claim states that consuming a decimal-point token appends a
`Dot` part.  Evaluating the structure builder on the format `"0.0"` —
whose token stream is `[Placeholder '0', DecimalPoint, Placeholder '0']` —
yields a single section whose parts are two `ZeroDigit`s and no `Dot`
part at all: the builder's `case 'Dot'` switch arm never matches the
`'DecimalPoint'` token tag, so the decimal-point token contributes
nothing. -/
theorem c2_decimal_point_appends_no_dot_part :
    parse (tokenize "0.0") =
      { sections := [{ parts := [FormatPart.ZeroDigit, FormatPart.ZeroDigit] }] } := by
  decide

/-- C8 counterexample.  The claim bounds the section count of every built
AST to the range 1–4; the format `"0;0;0;0;0"` builds an AST with five
sections (and the empty format builds one with zero sections), so the
claim as stated is false. -/
theorem c8_counterexample_five_sections :
    (parse (tokenize "0;0;0;0;0")).sections.length = 5 ∧
      (parse (tokenize "")).sections.length = 0 := by
  decide

/-- C6 counterexample.  For a section whose decimal side is
`0x0` (a literal between two placeholders) and fraction digits `456`, the
digit emitted at the last decimal placeholder is `'5'` and the following
fraction digit `'6'` lies in `'5'`–`'9'`, so the claim requires output
`"0.4x6"`; the code produces `"0.4x5"`, because its rounding guard
compares the count of emitted digits (here 1) with the parts-index of the
last placeholder (here 2) and the interleaved literal makes them differ. -/
theorem c6_counterexample_literal_blocks_rounding :
    renderSection
        ⟨none, none,
          [FormatPart.ZeroDigit, FormatPart.Dot, FormatPart.ZeroDigit,
            FormatPart.Literal 'x', FormatPart.ZeroDigit],
          none, 0, false, none⟩
        (Value.num ⟨false, ['0'], ['4', '5', '6']⟩) = "0.4x5" ∧
      ("0.4x5" : String) ≠ "0.4x6" := by
  decide

/-- Helper: a run of parts without the decimal-point marker has no
`Dot` index. -/
theorem findIdx_isDot_eq_none {parts : List FormatPart} (h : FormatPart.Dot ∉ parts) :
    parts.findIdx? (fun p => isDotPart p) = none := by
  rw [List.findIdx?_eq_none_iff]
  intro x hx
  cases x <;> simp [isDotPart]
  exact h hx

/-- Helper: without a `Dot` part, `renderNumParts` never reads the
fraction-digit string. -/
theorem renderNumParts_ignores_frac (sec : FormatSection) (h : FormatPart.Dot ∉ sec.parts)
    (isNeg : Bool) (intStr d1 d2 : List Char) :
    renderNumParts sec isNeg intStr d1 = renderNumParts sec isNeg intStr d2 := by
  unfold renderNumParts
  rw [findIdx_isDot_eq_none h]

/-- C7.  Confirmed: when the selected section's parts contain no `Dot`
part, rendering a numeric value discards the fraction-digit string of the
(percent-scaled) magnitude entirely and applies no rounding to the integer
side — the result equals the rendering of the bare integer-digit string
with an empty fraction, i.e. the truncated magnitude. -/
theorem c7_no_dot_truncates (sec : FormatSection) (h : FormatPart.Dot ∉ sec.parts)
    (v : JSNum) :
    renderSection sec (Value.num v) =
      renderNumParts sec (decide (v.toRat < 0)) (scaledSplit v sec.percentCount).1 [] := by
  unfold renderSection
  exact renderNumParts_ignores_frac sec h _ _ _ _

/-- C7 witness: the section `##` applied to 98.76 renders the truncated
magnitude 98. -/
theorem c7_witness :
    FormatPart.Dot ∉ [FormatPart.Digit, FormatPart.Digit] ∧
      renderSection { parts := [FormatPart.Digit, FormatPart.Digit] }
          (Value.num ⟨false, ['9', '8'], ['7', '6']⟩) =
        renderNumParts { parts := [FormatPart.Digit, FormatPart.Digit] }
          (decide ((⟨false, ['9', '8'], ['7', '6']⟩ : JSNum).toRat < 0))
          (scaledSplit ⟨false, ['9', '8'], ['7', '6']⟩ 0).1 [] :=
  ⟨by decide,
    c7_no_dot_truncates { parts := [FormatPart.Digit, FormatPart.Digit] } (by decide) _⟩

/-- C5.  Confirmed: whenever section selection signals no match, or the
selected section carries a condition that does not hold at render time
(a condition never holds for a textual value), `render` returns the
value's default textual representation with no color, bypassing all
formatting; the function is total, so no error is raised. -/
theorem c5_fallback_plain_text (value : Value) (format : String)
    (h : selectSection (parse (tokenize format)) value = none ∨
      ∃ sec c, selectSection (parse (tokenize format)) value = some sec ∧
        sec.condition = some c ∧
        ∀ n, value = Value.num n → evaluateCondition c n.toRat = false) :
    render value format = { text := jsString value, color := none } := by
  unfold render renderWithAST
  rcases h with h | ⟨sec, c, hsel, hc, hf⟩
  · rw [h]
  · rw [hsel]
    dsimp only
    rw [hc]
    cases value with
    | num n => simp [hf n rfl]
    | str s => rfl

/-- C5 witness: the single section of `[>100]0` carries a condition, which
the textual value `"abc"` cannot satisfy, so the plain text comes back. -/
theorem c5_witness :
    render (Value.str "abc") "[>100]0" = { text := "abc", color := none } :=
  c5_fallback_plain_text (Value.str "abc") "[>100]0"
    (Or.inr ⟨{ condition := some ⟨">", 100⟩, parts := [FormatPart.ZeroDigit] }, ⟨">", 100⟩,
      by decide, by decide, fun n hn => by cases hn⟩)

/-- Helper: searching a filtered list with a predicate that entails the
filter yields the search over the original list. -/
theorem find?_filter_of_imp {α : Type} (l : List α) (p q : α → Bool)
    (h : ∀ a, q a = true → p a = true) :
    (l.filter p).find? q = l.find? q := by
  induction l with
  | nil => rfl
  | cons a l ih =>
    by_cases hp : p a = true
    · rw [List.filter_cons_of_pos hp]
      by_cases hq : q a = true
      · rw [List.find?_cons_of_pos _ hq, List.find?_cons_of_pos _ hq]
      · rw [List.find?_cons_of_neg _ (by simpa using hq),
          List.find?_cons_of_neg _ (by simpa using hq)]
        exact ih

    · rw [List.filter_cons_of_neg (by simpa using hp)]
      have hq : ¬ q a = true := fun hqa => hp (h a hqa)
      rw [List.find?_cons_of_neg _ (by simpa using hq)]
      exact ih

/-- Helper: the head of a filtered list is the first element satisfying
the filter. -/
theorem head?_filter_eq_find? {α : Type} (l : List α) (p : α → Bool) :
    (l.filter p).head? = l.find? p := by
  induction l with
  | nil => rfl
  | cons a l ih =>
    by_cases hp : p a = true
    · rw [List.filter_cons_of_pos hp, List.find?_cons_of_pos _ hp]
      rfl
    · rw [List.filter_cons_of_neg (by simpa using hp),
        List.find?_cons_of_neg _ (by simpa using hp)]
      exact ih

/-- Helper: element 0 is the head. -/
theorem getElem?_zero_head? {α : Type} (l : List α) : l[0]? = l.head? := by
  cases l <;> simp

/-- Helper: a section for which `condHolds` is true carries a condition. -/
theorem condHolds_imp_isSome (n : JSNum) (s : FormatSection)
    (h : condHolds n s = true) : s.condition.isSome = true := by
  unfold condHolds at h
  cases hc : s.condition with
  | none => rw [hc] at h; cases h
  | some c => rfl

/-- C3.  Confirmed: for a numeric value and an AST of more than one
section in which some section carries a condition, selection returns the
first section (in original left-to-right order) whose condition holds;
failing that, the first section carrying no condition; failing that, no
match (`none`). -/
theorem c3_conditional_selection (ast : FormatAST) (n : JSNum)
    (hlen : 1 < ast.sections.length)
    (hcond : ∃ s ∈ ast.sections, s.condition.isSome = true) :
    selectSection ast (Value.num n) =
      (ast.sections.find? (condHolds n)).orElse
        (fun _ => ast.sections.find? (fun s => s.condition.isNone)) := by
  obtain ⟨secs⟩ := ast
  dsimp only at hlen hcond ⊢
  obtain ⟨s, hs, hsome⟩ := hcond
  unfold selectSection
  dsimp only
  rw [if_neg (by omega)]
  have hmem : s ∈ secs.filter (fun s => s.condition.isSome) :=
    List.mem_filter.mpr ⟨hs, hsome⟩
  rw [if_pos (List.length_pos.mpr (List.ne_nil_of_mem hmem))]
  rw [find?_filter_of_imp secs _ _ (condHolds_imp_isSome n)]
  cases hf : secs.find? (condHolds n) with
  | some t => rfl
  | none =>
    show (secs.filter (fun s => s.condition.isNone))[0]? = _
    rw [getElem?_zero_head?, head?_filter_eq_find?]
    rfl

/-- C3 witness: for the two-section AST of `[>100]0;0` and the value 7,
the first condition fails and the conditionless second section is
selected. -/
theorem c3_witness :
    1 < (parse (tokenize "[>100]0;0")).sections.length ∧
      selectSection (parse (tokenize "[>100]0;0")) (Value.num ⟨false, ['7'], []⟩) =
        ((parse (tokenize "[>100]0;0")).sections.find?
            (condHolds ⟨false, ['7'], []⟩)).orElse
          (fun _ => (parse (tokenize "[>100]0;0")).sections.find?
            (fun s => s.condition.isNone)) :=
  ⟨by decide,
    c3_conditional_selection (parse (tokenize "[>100]0;0")) ⟨false, ['7'], []⟩
      (by decide)
      ⟨{ condition := some ⟨">", 100⟩, parts := [FormatPart.ZeroDigit] },
        by decide, by decide⟩⟩

/-- C4.  Confirmed: for an AST of 1–4 sections none of which carries a
condition, selection follows the positional rules: a single section always
wins; with two sections negatives take the second and everything else the
first; with three or four sections positives take the first, negatives the
second and zero the third; a textual value takes the fourth section
exactly when there are four, otherwise the first. -/
theorem c4_positional_selection (ast : FormatAST) (value : Value)
    (hnc : ∀ s ∈ ast.sections, s.condition = none)
    (h1 : 1 ≤ ast.sections.length) (h4 : ast.sections.length ≤ 4) :
    selectSection ast value = ast.sections[specSelectionIndex ast.sections.length value]? := by
  obtain ⟨secs⟩ := ast
  dsimp only at hnc h1 h4 ⊢
  have hfil : secs.filter (fun s => s.condition.isSome) = [] := by
    rw [List.filter_eq_nil_iff]
    intro a ha
    rw [hnc a ha]
    simp
  rcases secs with _ | ⟨a, _ | ⟨b, _ | ⟨c, _ | ⟨d, _ | ⟨e, t⟩⟩⟩⟩⟩
  · simp at h1
  · cases value with
    | str s => simp [selectSection, specSelectionIndex]
    | num n => simp [selectSection, specSelectionIndex]
  · cases value with
    | str s => simp [selectSection, specSelectionIndex, hfil]
    | num n =>
      rcases lt_trichotomy n.toRat 0 with h | h | h
      · simp [selectSection, specSelectionIndex, hfil, h]
      · simp [selectSection, specSelectionIndex, hfil, h]
      · simp [selectSection, specSelectionIndex, hfil, h, asymm h]
  · cases value with
    | str s => simp [selectSection, specSelectionIndex, hfil]
    | num n =>
      rcases lt_trichotomy n.toRat 0 with h | h | h
      · simp [selectSection, specSelectionIndex, hfil, h, asymm h]
      · simp [selectSection, specSelectionIndex, hfil, h]
      · simp [selectSection, specSelectionIndex, hfil, h, asymm h]
  · cases value with
    | str s => simp [selectSection, specSelectionIndex, hfil]
    | num n =>
      rcases lt_trichotomy n.toRat 0 with h | h | h
      · simp [selectSection, specSelectionIndex, hfil, h, asymm h]
      · simp [selectSection, specSelectionIndex, hfil, h]
      · simp [selectSection, specSelectionIndex, hfil, h, asymm h]
  · simp at h4

/-- C4 witness: a three-section conditionless AST and a negative value
select the second section. -/
theorem c4_witness :
    (∀ s ∈ (parse (tokenize "0;0,0;#")).sections, s.condition = none) ∧
      selectSection (parse (tokenize "0;0,0;#")) (Value.num ⟨true, ['5'], []⟩) =
        (parse (tokenize "0;0,0;#")).sections[specSelectionIndex
          (parse (tokenize "0;0,0;#")).sections.length (Value.num ⟨true, ['5'], []⟩)]? :=
  ⟨by decide,
    c4_positional_selection (parse (tokenize "0;0,0;#")) (Value.num ⟨true, ['5'], []⟩)
      (by decide) (by decide) (by decide)⟩

/-- Helper: filtering on the condition field commutes with erasing the
scale field. -/
theorem filter_isSome_map_clearScale (l : List FormatSection) :
    (l.map FormatSection.clearScale).filter (fun s => s.condition.isSome) =
      (l.filter (fun s => s.condition.isSome)).map FormatSection.clearScale := by
  rw [List.filter_map]
  exact rfl

/-- Helper: filtering for conditionless sections commutes with erasing the
scale field. -/
theorem filter_isNone_map_clearScale (l : List FormatSection) :
    (l.map FormatSection.clearScale).filter (fun s => s.condition.isNone) =
      (l.filter (fun s => s.condition.isNone)).map FormatSection.clearScale := by
  rw [List.filter_map]
  exact rfl

/-- Helper: the condition search commutes with erasing the scale field. -/
theorem find?_condHolds_map_clearScale (l : List FormatSection) (n : JSNum) :
    (l.map FormatSection.clearScale).find? (condHolds n) =
      (l.find? (condHolds n)).map FormatSection.clearScale := by
  rw [List.find?_map]
  exact rfl

/-- Helper: section selection commutes with erasing every scale field. -/
theorem selectSection_map_clearScale (secs : List FormatSection) (v : Value) :
    selectSection ⟨secs.map FormatSection.clearScale⟩ v =
      (selectSection ⟨secs⟩ v).map FormatSection.clearScale := by
  unfold selectSection
  dsimp only
  simp only [List.length_map]
  by_cases h1 : secs.length = 1
  · rw [if_pos h1, if_pos h1, List.getElem?_map]
  · rw [if_neg h1, if_neg h1, filter_isSome_map_clearScale]
    cases v with
    | num n =>
      dsimp only
      simp only [List.length_map]
      by_cases hc : 0 < (secs.filter fun s => s.condition.isSome).length
      · rw [if_pos hc, if_pos hc, find?_condHolds_map_clearScale]
        cases hff : (secs.filter fun s => s.condition.isSome).find? (condHolds n) with
        | some s => rfl
        | none =>
          dsimp only
          rw [filter_isNone_map_clearScale, List.getElem?_map]
          rfl
      · rw [if_neg hc, if_neg hc]
        split_ifs <;> rw [List.getElem?_map]
    | str _ =>
      dsimp only
      split_ifs <;> rw [List.getElem?_map]

/-- Helper: rendering is unchanged by erasing every scale field of the
AST's sections. -/
theorem renderWithAST_map_clearScale (secs : List FormatSection) (v : Value) :
    renderWithAST ⟨secs.map FormatSection.clearScale⟩ v = renderWithAST ⟨secs⟩ v := by
  unfold renderWithAST
  rw [selectSection_map_clearScale]
  cases hs : selectSection ⟨secs⟩ v with
  | none => rfl
  | some s => exact rfl

/-- C10.  Confirmed: for any two ASTs that agree everywhere except in
their sections' `scale` fields (their images under erasing `scale`
coincide), rendering any value through them gives identical text and
color: the renderer never reads `scale`. -/
theorem c10_scale_never_read (a1 a2 : FormatAST) (value : Value)
    (h : a1.sections.map FormatSection.clearScale = a2.sections.map FormatSection.clearScale) :
    renderWithAST a1 value = renderWithAST a2 value := by
  have e1 := renderWithAST_map_clearScale a1.sections value
  have e2 := renderWithAST_map_clearScale a2.sections value
  rw [h] at e1
  exact e1.symm.trans e2

/-- C10 witness: two one-section ASTs differing only in `scale`
(`some 1000` versus `none`, the trailing-comma accumulation) render the
value 7 identically. -/
theorem c10_witness :
    (FormatAST.mk [{ parts := [FormatPart.ZeroDigit], scale := some 1000 }]).sections.map
        FormatSection.clearScale =
      (FormatAST.mk [{ parts := [FormatPart.ZeroDigit] }]).sections.map
        FormatSection.clearScale ∧
    renderWithAST (FormatAST.mk [{ parts := [FormatPart.ZeroDigit], scale := some 1000 }])
        (Value.num ⟨false, ['7'], []⟩) =
      renderWithAST (FormatAST.mk [{ parts := [FormatPart.ZeroDigit] }])
        (Value.num ⟨false, ['7'], []⟩) :=
  ⟨by decide, c10_scale_never_read _ _ _ (by decide)⟩

/-- Helper: counting separators after a separator. -/
theorem countSectionSeps_cons_sep (rest : List Token) :
    countSectionSeps (Token.SectionSeparator :: rest) = countSectionSeps rest + 1 := by
  simp [countSectionSeps, List.countP_cons]

/-- Helper: the builder's output length is bounded by the number of
separator tokens consumed: it grows by one at every separator and by at
most one more at the end of input. -/
theorem parseAux_length_bounds (tokens : List Token) :
    ∀ (prev : Option Token) (sec : FormatSection) (acc : List FormatSection),
      acc.length + countSectionSeps tokens ≤ (parseAux prev tokens sec acc).length ∧
        (parseAux prev tokens sec acc).length ≤ acc.length + countSectionSeps tokens + 1 := by
  induction tokens with
  | nil =>
    intro prev sec acc
    simp only [parseAux]
    have h0 : countSectionSeps ([] : List Token) = 0 := rfl
    simp only [h0]
    split <;> simp
  | cons tk rest ih =>
    intro prev sec acc
    by_cases hsep : tk = Token.SectionSeparator
    · subst hsep
      simp only [parseAux, countSectionSeps_cons_sep]
      have h := ih (some Token.SectionSeparator) emptySection (acc ++ [sec])
      simp only [List.length_append, List.length_cons, List.length_nil] at h
      omega
    · have hcount : countSectionSeps (tk :: rest) = countSectionSeps rest := by
        simp [countSectionSeps, List.countP_cons, hsep]
      simp only [hcount]
      cases tk <;> simp only [parseAux] <;>
        first
          | exact ih _ _ _
          | exact absurd rfl hsep

/-- C8 amended.  The claim's 1–4 bound is false (see the counterexample);
what holds is that for every format string the number of sections of the
built AST equals the number `s` of section-separator tokens, or `s + 1`. -/
theorem c8_section_count_pinned (format : String) :
    (parse (tokenize format)).sections.length = countSectionSeps (tokenize format) ∨
      (parse (tokenize format)).sections.length = countSectionSeps (tokenize format) + 1 := by
  have h := parseAux_length_bounds (tokenize format) none emptySection []
  unfold parse
  dsimp only
  simp only [List.length_nil, Nat.zero_add] at h
  omega

/-- Helper: the index found after a prefix that never matches, at a head
that matches, is the prefix length (shifted by the accumulator). -/
theorem findIdx?_append_all_false {α : Type} (p : α → Bool) (l1 : List α) :
    ∀ (l2 : List α) (a : α) (i : Nat), (∀ x ∈ l1, p x = false) → p a = true →
      List.findIdx? p (l1 ++ a :: l2) i = some (i + l1.length) := by
  induction l1 with
  | nil =>
    intro l2 a i h1 ha
    simp [List.findIdx?_cons, ha]
  | cons x l1 ih =>
    intro l2 a i h1 ha
    have hx : p x = false := h1 x (List.mem_cons_self x l1)
    rw [List.cons_append, List.findIdx?_cons, hx]
    simp only [Bool.false_eq_true, if_false]
    rw [ih l2 a (i + 1) (fun y hy => h1 y (List.mem_cons_of_mem x hy)) ha]
    congr 1
    simp [List.length_cons]
    omega

/-- Helper: the last-placeholder index of a decimal side split as
`ps ++ pl :: qs` with `pl` the final digit placeholder is `ps.length`. -/
theorem lastPlaceholderIndex_split (ps qs : List FormatPart) (pl : FormatPart)
    (hpl : isPlaceholderPart pl = true)
    (hqs : ∀ p ∈ qs, isPlaceholderPart p = false) :
    lastPlaceholderIndex (ps ++ pl :: qs) = (ps.length : Int) := by
  unfold lastPlaceholderIndex
  have hrev : (ps ++ pl :: qs).reverse = qs.reverse ++ pl :: ps.reverse := by
    rw [List.reverse_append, List.reverse_cons, List.append_assoc]
    rfl
  rw [hrev, findIdx?_append_all_false _ _ _ _ _
    (fun x hx => hqs x (List.mem_reverse.mp hx)) hpl]
  simp [List.length_append, List.length_reverse]
  omega

/-- Helper: one placeholder step of the decimal loop while a fraction
digit is available consumes exactly that digit. -/
theorem fdpGo_cons_placeholder (decStr : List Char) (L : Int) (rest : List FormatPart)
    (p : FormatPart) (hp : isPlaceholderPart p = true) (i digs : Nat) (r : String)
    (hi : i < decStr.length) :
    fdpGo decStr L (p :: rest) ⟨i, digs, r⟩ =
      fdpGo decStr L rest (fdpPush decStr L ⟨i + 1, digs, r⟩ decStr[i]) := by
  cases p with
  | Digit => simp [fdpGo, List.getElem?_eq_getElem hi]
  | ZeroDigit => simp [fdpGo, List.getElem?_eq_getElem hi]
  | SpaceDigit => simp [fdpGo, List.getElem?_eq_getElem hi]
  | Percent => simp [isPlaceholderPart] at hp
  | Literal ch => simp [isPlaceholderPart] at hp
  | Dot => simp [isPlaceholderPart] at hp

/-- Helper: a run of digit placeholders strictly before the last
placeholder emits the corresponding fraction digits verbatim. -/
theorem fdpGo_placeholder_run (decStr : List Char) (k : Nat) (ps : List FormatPart) :
    ∀ (rest : List FormatPart) (i : Nat) (r : String),
      (∀ p ∈ ps, isPlaceholderPart p = true) →
      i + ps.length ≤ k → k < decStr.length →
      fdpGo decStr (k : Int) (ps ++ rest) ⟨i, i, r⟩ =
        fdpGo decStr (k : Int) rest
          ⟨i + ps.length, i + ps.length,
            r ++ String.mk ((decStr.drop i).take ps.length)⟩ := by
  induction ps with
  | nil =>
    intro rest i r hps hik hk
    simp [String.append_empty]
  | cons p ps ih =>
    intro rest i r hps hik hk
    have hi : i < decStr.length := by
      have := hik
      simp [List.length_cons] at this
      omega
    rw [List.cons_append,
      fdpGo_cons_placeholder decStr _ _ p (hps p (List.mem_cons_self p ps)) i i r hi]
    have hnotlast : ¬ ((i : Int) = (k : Int)) := by
      simp [List.length_cons] at hik
      omega
    have hpush : fdpPush decStr (k : Int) ⟨i + 1, i, r⟩ decStr[i] =
        ⟨i + 1, i + 1, r ++ String.mk [decStr[i]]⟩ := by
      unfold fdpPush
      rw [if_neg hnotlast]
    rw [hpush, ih rest (i + 1) (r ++ String.mk [decStr[i]])
      (fun q hq => hps q (List.mem_cons_of_mem p hq)) (by simp at hik ⊢; omega) hk]
    have hdigits : (decStr.drop i).take (p :: ps).length =
        decStr[i] :: ((decStr.drop (i + 1)).take ps.length) := by
      rw [List.drop_eq_getElem_cons hi, List.length_cons, List.take_succ_cons]
    rw [hdigits]
    have hstr : r ++ String.mk [decStr[i]] ++ String.mk ((decStr.drop (i + 1)).take ps.length) =
        r ++ String.mk (decStr[i] :: (decStr.drop (i + 1)).take ps.length) := by
      rw [String.append_assoc]
      rfl
    rw [hstr]
    have harith : i + 1 + ps.length = i + (p :: ps).length := by
      simp [List.length_cons]
      omega
    rw [harith]

/-- Helper: decimal-side parts with no digit placeholder only append their
literal rendering. -/
theorem fdpGo_no_placeholder (decStr : List Char) (L : Int) (qs : List FormatPart) :
    ∀ (st : FdpState), (∀ p ∈ qs, isPlaceholderPart p = false) →
      fdpGo decStr L qs st = ⟨st.digitIndex, st.digits, st.result ++ tailLiterals qs⟩ := by
  induction qs with
  | nil =>
    intro st _
    simp [fdpGo, tailLiterals, String.append_empty]
  | cons q qs ih =>
    intro st hqs
    have hq : isPlaceholderPart q = false := hqs q (List.mem_cons_self q qs)
    have hrest : ∀ p ∈ qs, isPlaceholderPart p = false :=
      fun p hp => hqs p (List.mem_cons_of_mem q hp)
    cases q with
    | Percent =>
      rw [show fdpGo decStr L (FormatPart.Percent :: qs) st =
          fdpGo decStr L qs ⟨st.digitIndex, st.digits, st.result ++ "%"⟩ from rfl]
      rw [ih _ hrest]
      simp [tailLiterals, String.append_assoc]
    | Literal ch =>
      rw [show fdpGo decStr L (FormatPart.Literal ch :: qs) st =
          fdpGo decStr L qs ⟨st.digitIndex, st.digits, st.result ++ String.mk [ch]⟩ from rfl]
      rw [ih _ hrest]
      simp [tailLiterals, String.append_assoc]
    | Dot =>
      rw [show fdpGo decStr L (FormatPart.Dot :: qs) st = fdpGo decStr L qs st from rfl]
      rw [ih _ hrest]
      simp [tailLiterals]
    | Digit => simp [isPlaceholderPart] at hq
    | ZeroDigit => simp [isPlaceholderPart] at hq
    | SpaceDigit => simp [isPlaceholderPart] at hq

/-- Helper: the push performed at the last decimal placeholder applies the
half-up replacement of `pushDigit`. -/
theorem fdpPush_at_last (decStr : List Char) (k : Nat) (r : String)
    (hk : k < decStr.length) :
    fdpPush decStr (k : Int) ⟨k + 1, k, r⟩ decStr[k] =
      ⟨k + 1, k + 1, r ++ roundLastDigit decStr k⟩ := by
  unfold fdpPush roundLastDigit
  rw [if_pos rfl]
  have hc : decStr.getD k '0' = decStr[k] := by
    rw [List.getD_eq_getElem?_getD, List.getElem?_eq_getElem hk]
    rfl
  rw [hc]

/-- C6 amended.  The half-up increment fires at the last decimal digit
placeholder when (as the code's guard actually requires) the count of
digits emitted before it equals its parts-index — in particular whenever
every decimal-side part before it is a digit placeholder that consumed a
fraction digit.  Then the digits before the last placeholder are emitted
verbatim (no carry into them, nor into the separately rendered integer
side), and the digit at the last placeholder is replaced by itself plus
one (a 9 becomes the two-character string `"10"`) exactly when the next
fraction digit is in `'5'`–`'9'`; trailing non-placeholder parts render
unchanged. -/
theorem c6_rounding_at_last_placeholder (decStr : List Char) (sec : FormatSection)
    (ps qs : List FormatPart) (pl : FormatPart)
    (hps : ∀ p ∈ ps, isPlaceholderPart p = true)
    (hpl : isPlaceholderPart pl = true)
    (hqs : ∀ p ∈ qs, isPlaceholderPart p = false)
    (hlen : ps.length < decStr.length) :
    formatDecimalPart decStr sec (ps ++ pl :: qs) =
      String.mk (decStr.take ps.length) ++ roundLastDigit decStr ps.length ++
        tailLiterals qs := by
  unfold formatDecimalPart
  rw [lastPlaceholderIndex_split ps qs pl hpl hqs]
  rw [show ({ digitIndex := 0, digits := 0, result := "" } : FdpState) =
      ⟨0, 0, ""⟩ from rfl]
  rw [fdpGo_placeholder_run decStr ps.length ps (pl :: qs) 0 "" hps (by omega) hlen]
  simp only [Nat.zero_add, List.drop_zero, String.empty_append]
  rw [fdpGo_cons_placeholder decStr (ps.length : Int) qs pl hpl ps.length ps.length
    (String.mk (decStr.take ps.length)) hlen]
  rw [fdpPush_at_last decStr ps.length (String.mk (decStr.take ps.length)) hlen]
  rw [fdpGo_no_placeholder decStr _ qs _ hqs]

/-- C6 amended witness: decimal side `00%` with fraction digits `456`
rounds the second digit up to 6 and appends the percent sign. -/
theorem c6_witness :
    formatDecimalPart ['4', '5', '6'] {}
        ([FormatPart.ZeroDigit] ++ FormatPart.ZeroDigit :: [FormatPart.Percent]) =
      String.mk (['4', '5', '6'].take 1) ++ roundLastDigit ['4', '5', '6'] 1 ++
        tailLiterals [FormatPart.Percent] :=
  c6_rounding_at_last_placeholder ['4', '5', '6'] {} [FormatPart.ZeroDigit]
    [FormatPart.Percent] FormatPart.ZeroDigit (by decide) (by decide) (by decide) (by decide)

/-- Helper: a digit character read back as a number is the digit. -/
theorem digitChar_toNat_sub (n : Nat) (h : n < 10) : (Nat.digitChar n).toNat - 48 = n := by
  interval_cases n <;> decide

/-- Helper: folding the digit-accumulation step over the produced digit
list threads the value through. -/
theorem foldl_natToDigitsGo :
    ∀ (fuel n : Nat) (acc : List Char), n < 10 ^ fuel →
      List.foldl (fun a c => 10 * a + (c.toNat - 48)) 0 (natToDigitsGo fuel n acc) =
        List.foldl (fun a c => 10 * a + (c.toNat - 48)) n acc := by
  intro fuel
  induction fuel with
  | zero =>
    intro n acc hn
    have : n = 0 := by simpa using hn
    subst this
    rfl
  | succ fuel ih =>
    intro n acc hn
    have hstep : natToDigitsGo (fuel + 1) n acc =
        if n < 10 then Nat.digitChar n :: acc
        else natToDigitsGo fuel (n / 10) (Nat.digitChar (n % 10) :: acc) := rfl
    by_cases h : n < 10
    · rw [hstep, if_pos h]
      rw [List.foldl_cons, digitChar_toNat_sub n h]
      norm_num
    · rw [hstep, if_neg h]
      rw [ih (n / 10) _ (by
        rw [Nat.div_lt_iff_lt_mul (by norm_num)]
        calc n < 10 ^ (fuel + 1) := hn
          _ = 10 ^ fuel * 10 := by ring)]
      rw [List.foldl_cons, digitChar_toNat_sub (n % 10) (Nat.mod_lt n (by norm_num))]
      rw [Nat.div_add_mod]

/-- Helper: reading back the decimal digit string of `n` yields `n`. -/
theorem digitsToNat_natToDigits (n : Nat) : digitsToNat (natToDigits n) = n := by
  unfold digitsToNat natToDigits
  rw [foldl_natToDigitsGo (n + 1) n []
    (lt_of_lt_of_le (Nat.lt_pow_self (by norm_num) n)
      (Nat.pow_le_pow_right (by norm_num) (Nat.le_succ n)))]
  rfl

/-- Helper: the modelled JS number of an integer denotes that integer. -/
theorem toRat_intToJSNum (v : Int) : (intToJSNum v).toRat = (v : ℚ) := by
  unfold intToJSNum JSNum.toRat
  dsimp only
  rw [show (([] : List Char).length) = 0 from rfl]
  rw [digitsToNat_natToDigits]
  rw [show digitsToNat [] = 0 from rfl]
  simp only [pow_zero, mul_one, Nat.add_zero, Rat.mkRat_one]
  by_cases hv : v < 0
  · rw [if_pos (by simpa using hv)]
    push_cast [Int.cast_natAbs]
    rw [abs_of_neg (show ((v : ℚ) < 0) by exact_mod_cast hv)]
    ring
  · rw [if_neg (by simpa using hv)]
    push_cast [Int.cast_natAbs]
    rw [abs_of_nonneg (show ((0 : ℚ) ≤ (v : ℚ)) by exact_mod_cast (not_lt.mp hv))]

/-- Helper: tokenizing a run of `k` hash marks yields `k` placeholder
tokens. -/
theorem tokenizeGo_replicate_hash (k : Nat) :
    tokenizeGo k (List.replicate k '#') = List.replicate k (Token.Placeholder '#') := by
  induction k with
  | zero => rfl
  | succ k ih =>
    rw [List.replicate_succ]
    rw [show tokenizeGo (k + 1) ('#' :: List.replicate k '#') =
        Token.Placeholder '#' :: tokenizeGo k (List.replicate k '#') from rfl]
    rw [ih]
    rfl

/-- Helper: `tokenize` on the all-hash format string. -/
theorem tokenize_replicate_hash (k : Nat) :
    tokenize (String.mk (List.replicate k '#')) = List.replicate k (Token.Placeholder '#') := by
  unfold tokenize
  rw [show (String.mk (List.replicate k '#')).toList = List.replicate k '#' from rfl]
  rw [List.length_replicate]
  exact tokenizeGo_replicate_hash k

/-- Helper: the structure builder turns `k` hash placeholders into `k`
`Digit` parts appended to the current section. -/
theorem parseAux_replicate_hash (k : Nat) :
    ∀ (prev : Option Token) (sec : FormatSection) (acc : List FormatSection),
      parseAux prev (List.replicate k (Token.Placeholder '#')) sec acc =
        (if (sec.parts ++ List.replicate k FormatPart.Digit).length > 0 then
          acc ++ [{ sec with parts := sec.parts ++ List.replicate k FormatPart.Digit }]
         else acc) := by
  induction k with
  | zero =>
    intro prev sec acc
    simp only [List.replicate, List.append_nil, parseAux]
  | succ k ih =>
    intro prev sec acc
    rw [List.replicate_succ]
    rw [show parseAux prev (Token.Placeholder '#' :: List.replicate k (Token.Placeholder '#')) sec acc =
        parseAux (some (Token.Placeholder '#')) (List.replicate k (Token.Placeholder '#'))
          { sec with parts := sec.parts ++ [FormatPart.Digit] } acc from rfl]
    rw [ih]
    have hparts : (sec.parts ++ [FormatPart.Digit]) ++ List.replicate k FormatPart.Digit =
        sec.parts ++ List.replicate (k + 1) FormatPart.Digit := by
      rw [List.append_assoc, List.singleton_append, List.replicate_succ]
    rw [hparts]

/-- Helper: parsing the all-hash token stream gives one all-`Digit`
section. -/
theorem parse_replicate_hash (k : Nat) (hk : 0 < k) :
    parse (List.replicate k (Token.Placeholder '#')) =
      { sections := [{ parts := List.replicate k FormatPart.Digit }] } := by
  unfold parse
  rw [parseAux_replicate_hash k none emptySection []]
  rw [if_pos (by simp [emptySection]; omega)]
  rfl

/-- Helper: the integer-side flush with grouping off pushes all remaining
digits. -/
theorem fipFlushGo_false (l : List Char) :
    ∀ (digs : Nat) (res : List Char),
      fipFlushGo false l ⟨l, digs, res⟩ = ⟨[], digs + l.length, res ++ l⟩ := by
  induction l with
  | nil => intro digs res; simp [fipFlushGo]
  | cons d rest ih =>
    intro digs res
    rw [show fipFlushGo false (d :: rest) ⟨d :: rest, digs, res⟩ =
        fipFlushGo false rest ⟨rest, digs + 1, res ++ [d]⟩ from rfl]
    rw [ih]
    simp [List.length_cons, List.append_assoc]
    try omega

/-- Helper: the integer loop on an empty parts list is the identity. -/
theorem fipGo_nil (b : Bool) (L : Int) (idx : Nat) (st : FipState) :
    fipGo b L idx [] st = st := rfl

/-- Helper: one `Digit`-part step of the integer loop with grouping off. -/
theorem fipGo_cons_digit (L : Int) (idx : Nat) (ps : List FormatPart) (st : FipState) :
    fipGo false L idx (FormatPart.Digit :: ps) st =
      fipGo false L (idx + 1) ps
        (if (idx : Int) = L then fipFlush false (fipDigitStep false FormatPart.Digit st)
         else fipDigitStep false FormatPart.Digit st) := by
  simp only [fipGo, isPlaceholderPart, true_and]

/-- Helper: a run of `m ≥ 1` `Digit` parts whose final element sits at the
flush index consumes every remaining digit in order. -/
theorem fipGo_replicate_digit (m : Nat) :
    ∀ (i : Nat) (rev res : List Char) (digs : Nat), 0 < m →
      fipGo false ((i : Int) + (m : Int) - 1) i (List.replicate m FormatPart.Digit)
          ⟨rev, digs, res⟩ =
        ⟨[], digs + rev.length, res ++ rev⟩ := by
  induction m with
  | zero => intro i rev res digs h; omega
  | succ m ih =>
    intro i rev res digs _
    rw [List.replicate_succ, fipGo_cons_digit]
    by_cases hm : m = 0
    · subst hm
      rw [if_pos (by push_cast; omega)]
      cases rev with
      | nil =>
        rw [show fipDigitStep false FormatPart.Digit ⟨[], digs, res⟩ = ⟨[], digs, res⟩ from rfl]
        rw [show fipFlush false (⟨[], digs, res⟩ : FipState) = ⟨[], digs, res⟩ from rfl]
        rw [List.replicate_zero, fipGo_nil]
        simp
      | cons d rest =>
        rw [show fipDigitStep false FormatPart.Digit ⟨d :: rest, digs, res⟩ =
            ⟨rest, digs + 1, res ++ [d]⟩ from rfl]
        rw [show fipFlush false (⟨rest, digs + 1, res ++ [d]⟩ : FipState) =
            fipFlushGo false rest ⟨rest, digs + 1, res ++ [d]⟩ from rfl]
        rw [fipFlushGo_false]
        rw [List.replicate_zero, fipGo_nil]
        simp [List.length_cons, List.append_assoc]
        try omega
    · rw [if_neg (by push_cast; omega)]
      cases rev with
      | nil =>
        rw [show fipDigitStep false FormatPart.Digit ⟨[], digs, res⟩ = ⟨[], digs, res⟩ from rfl]
        have hL : (i : Int) + ((m + 1 : Nat) : Int) - 1 =
            ((i + 1 : Nat) : Int) + (m : Int) - 1 := by push_cast; omega
        rw [hL, ih (i + 1) [] res digs (by omega)]
      | cons d rest =>
        rw [show fipDigitStep false FormatPart.Digit ⟨d :: rest, digs, res⟩ =
            ⟨rest, digs + 1, res ++ [d]⟩ from rfl]
        have hL : (i : Int) + ((m + 1 : Nat) : Int) - 1 =
            ((i + 1 : Nat) : Int) + (m : Int) - 1 := by push_cast; omega
        rw [hL, ih (i + 1) rest (res ++ [d]) (digs + 1) (by omega)]
        simp [List.length_cons, List.append_assoc]
        try omega

/-- Helper: `formatIntegerPart` over an all-`Digit` placeholder run with
grouping off reproduces the digit string verbatim. -/
theorem formatIntegerPart_replicate_digit (digits : List Char) (k : Nat) (hk : 0 < k)
    (sec : FormatSection) (hsep : sec.thousandSeparator = false) :
    formatIntegerPart digits sec (List.replicate k FormatPart.Digit) = String.mk digits := by
  unfold formatIntegerPart
  have hfind : (List.replicate k FormatPart.Digit).findIdx? (fun p => isPlaceholderPart p) =
      some 0 := by
    cases k with
    | zero => omega
    | succ k =>
      rw [List.replicate_succ, List.findIdx?_cons]
      rw [if_pos (by simp [isPlaceholderPart])]
  rw [hfind]
  dsimp only
  rw [if_pos (by norm_num)]
  rw [List.length_replicate, List.reverse_replicate, hsep]
  have hrun := fipGo_replicate_digit k 0 digits.reverse [] 0 hk
  simp only [Nat.cast_zero, zero_add, sub_zero] at hrun ⊢
  rw [hrun]
  simp

/-- C9.  Confirmed: for every integer value and every all-`#` format of
positive length, the rendered text is the plain decimal string of the
integer — placeholders set only a minimum width and the magnitude is never
truncated (remaining digits are flushed verbatim at the leftmost
placeholder). -/
theorem c9_all_hash_renders_plain_decimal (v : Int) (k : Nat) (hk : 0 < k) :
    (render (Value.num (intToJSNum v)) (String.mk (List.replicate k '#'))).text =
      intPlainString v := by
  unfold render
  rw [tokenize_replicate_hash, parse_replicate_hash k hk]
  unfold renderWithAST
  rw [show selectSection { sections := [{ parts := List.replicate k FormatPart.Digit }] }
      (Value.num (intToJSNum v)) = some { parts := List.replicate k FormatPart.Digit } from by
    unfold selectSection
    simp]
  dsimp only
  unfold renderSection
  dsimp only
  rw [show scaledSplit (intToJSNum v) ({ parts := List.replicate k FormatPart.Digit } :
      FormatSection).percentCount = (natToDigits v.natAbs, []) from rfl]
  unfold renderNumParts
  rw [findIdx_isDot_eq_none (by
    intro hmem
    have := List.eq_of_mem_replicate hmem
    cases this)]
  dsimp only
  rw [formatIntegerPart_replicate_digit (natToDigits v.natAbs) k hk _ rfl]
  rw [toRat_intToJSNum]
  unfold intPlainString
  by_cases hv : v < 0
  · have hq : ((v : ℚ) < 0) := by exact_mod_cast hv
    simp [hv, hq]
  · have hq : ¬ ((v : ℚ) < 0) := by exact_mod_cast hv
    simp [hv, hq, String.empty_append]

/-- C9 witness: rendering −123 through `#####` gives `"-123"`. -/
theorem c9_witness :
    (0 : Nat) < 5 ∧
      (render (Value.num (intToJSNum (-123))) (String.mk (List.replicate 5 '#'))).text =
        intPlainString (-123) :=
  ⟨by decide, c9_all_hash_renders_plain_decimal (-123) 5 (by decide)⟩

end ENF
